import Mathlib

/-!
Verification of the documented behavior of the pinia store library.

The store implementation itself ships outside this source tree (the tree
contains its test suite and build configuration), so the store model below
is modelled from the spec: a store is a named bundle of reactive state,
derived values and action functions; the registry maps store ids to store
instances; a patch is a partial update applied to a store's state object;
the host framework's refs are modelled as mutable heap cells.

The Nuxt integration module (`packages/nuxt/src/module.ts`) is present in
the tree and is embedded directly from its source.
-/

namespace PiniaModel

/-- Plain JSON-compatible values held in store state fields. -/
inductive Val where
  | str (s : String)
  | num (n : Int)
  | boolean (b : Bool)
  deriving DecidableEq, Repr

/-- Modelled from the spec: the host framework's reactivity primitive (a
ref) is not part of this repository; it is modelled as a mutable cell in a
heap addressed by numeric ids.  Reading the heap at a cell's id "unwraps"
the ref; a writable computed used as a state source is modelled the same
way, by the cell its getter and setter read and write. -/
abbrev Heap := Nat → Val

/-- Write one ref cell of the heap. -/
def hset (h : Heap) (r : Nat) (v : Val) : Heap :=
  fun x => if x = r then v else h x

/-- First value bound to key `k` in an association list (JS object field
lookup). -/
def alookup {β : Type} (k : String) : List (String × β) → Option β
  | [] => none
  | e :: rest => if e.1 = k then some e.2 else alookup k rest

/-- Modelled from the spec: one entry of a setup function's return value,
as classified by the store factory: a ref (backing a state field), a
computed (derived value), or an action function. -/
inductive SetupEntry where
  | ref (r : Nat)
  | derived
  | action
  deriving DecidableEq, Repr

/-- Modelled from the spec: a store instance.  `stateFields` maps each
state field name to the id of the ref cell backing it; derived values and
actions are exposed under their names but own no state cell. -/
structure Store where
  id : String
  stateFields : List (String × Nat)
  getterNames : List String
  actionNames : List String
  deriving DecidableEq, Repr

/-- The ref-backed fields of a setup function's return value. -/
def buildFields : List (String × SetupEntry) → List (String × Nat)
  | [] => []
  | (k, .ref r) :: rest => (k, r) :: buildFields rest
  | (_, .derived) :: rest => buildFields rest
  | (_, .action) :: rest => buildFields rest

/-- The derived (computed) names of a setup function's return value. -/
def buildGetters : List (String × SetupEntry) → List String
  | [] => []
  | (_, .ref _) :: rest => buildGetters rest
  | (k, .derived) :: rest => k :: buildGetters rest
  | (_, .action) :: rest => buildGetters rest

/-- The action names of a setup function's return value. -/
def buildActions : List (String × SetupEntry) → List String
  | [] => []
  | (_, .ref _) :: rest => buildActions rest
  | (_, .derived) :: rest => buildActions rest
  | (k, .action) :: rest => k :: buildActions rest

/-- Modelled from the spec: the store factory classifies the setup
function's return value into state fields, derived values and actions. -/
def buildStore (id : String) (setupRet : List (String × SetupEntry)) : Store :=
  { id := id
    stateFields := buildFields setupRet
    getterNames := buildGetters setupRet
    actionNames := buildActions setupRet }

/-- `$state`: the store's state object, each ref unwrapped to its current
value. -/
def stateOf (h : Heap) (s : Store) : List (String × Val) :=
  s.stateFields.map (fun f => (f.1, h f.2))

/-- Every property name exposed on the store object: state fields,
derived values and actions. -/
def exposedKeys (s : Store) : List String :=
  s.stateFields.map Prod.fst ++ s.getterNames ++ s.actionNames

/-- Reading a state field through the store unwraps its backing ref. -/
def readField (h : Heap) (s : Store) (k : String) : Option Val :=
  (alookup k s.stateFields).map (fun r => h r)

/-- Direct assignment to a state field at the store level writes the
backing ref cell. -/
def writeField (h : Heap) (s : Store) (k : String) (v : Val) : Heap :=
  match alookup k s.stateFields with
  | some r => hset h r v
  | none => h

/-- `$patch`: a partial update applied to a store's state object, by
direct object assignment of each entry of the patch object. -/
def patchState (h : Heap) (s : Store) (p : List (String × Val)) : Heap :=
  match p with
  | [] => h
  | e :: rest => patchState (writeField h s e.1 e.2) s rest

/-- Modelled from the spec: the registry, a process-wide mapping from
store identifier to store instance, scoped to an application instance,
together with the heap of ref cells and a fresh-cell counter. -/
structure Pinia where
  heap : Heap
  stores : List (String × Store)
  nextRef : Nat

/-- Modelled from the spec: a fresh registry with no stores. -/
def createPinia : Pinia :=
  { heap := fun _ => Val.num 0, stores := [], nextRef := 0 }

/-- Modelled from the spec: one member of a store definition — a state
field with its initial value, a derived value, or an action. -/
inductive EntrySpec where
  | state (init : Val)
  | derived
  | action
  deriving DecidableEq, Repr

/-- Allocate a fresh ref cell for each state entry of a store
definition, initialising the cell in the heap. -/
def allocEntries : List (String × EntrySpec) → Nat → Heap →
    List (String × SetupEntry) × Nat × Heap
  | [], n, h => ([], n, h)
  | (k, .state init) :: rest, n, h =>
    let out := allocEntries rest (n + 1) (hset h n init)
    ((k, .ref n) :: out.1, out.2)
  | (k, .derived) :: rest, n, h =>
    let out := allocEntries rest n h
    ((k, .derived) :: out.1, out.2)
  | (k, .action) :: rest, n, h =>
    let out := allocEntries rest n h
    ((k, .action) :: out.1, out.2)

/-- Modelled from the spec: the store-creation function looks up or
creates an entry in the registry keyed by the store id. -/
def useStore (id : String) (su : List (String × EntrySpec)) (p : Pinia) :
    Store × Pinia :=
  match alookup id p.stores with
  | some s => (s, p)
  | none =>
    let out := allocEntries su p.nextRef p.heap
    let s := buildStore id out.1
    (s, { heap := out.2.2, stores := (id, s) :: p.stores, nextRef := out.2.1 })

/-- Modelled from the spec: `defineStore` returns the store-creation
function for the given id and store definition. -/
def defineStore (id : String) (su : List (String × EntrySpec)) :
    Pinia → Store × Pinia :=
  useStore id su

/-- Modelled from the spec: the errors the library can produce — invalid
store identifiers (duplicate or missing), action functions throwing
synchronously or rejecting, and use of store APIs before installation of
an active registry. -/
inductive PiniaError where
  | noActivePinia
  | duplicateId (id : String)
  | missingId (id : String)
  | actionFailure (msg : String)
  deriving DecidableEq, Repr

/-- Modelled from the spec: calling the store-creation function requires
an active registry; before installation there is none and the call
throws. -/
def useStoreChecked (active : Option Pinia) (id : String)
    (su : List (String × EntrySpec)) : Except PiniaError (Store × Pinia) :=
  match active with
  | none => .error .noActivePinia
  | some p => .ok (useStore id su p)

/-- Modelled from the spec: registering a store definition under an id
already taken is an invalid (duplicate) identifier error. -/
def registerId (defined : List String) (id : String) :
    Except PiniaError (List String) :=
  if id ∈ defined then .error (.duplicateId id) else .ok (id :: defined)

/-- Modelled from the spec: looking up a store by an id absent from the
registry is an invalid (missing) identifier error. -/
def lookupStore (p : Pinia) (id : String) : Except PiniaError Store :=
  match alookup id p.stores with
  | some s => .ok s
  | none => .error (.missingId id)

/-- Modelled from the spec: running an action function: a synchronous
throw or a rejection is surfaced to the caller as-is, with no recovery
or retry inserted by the library. -/
def runActionChecked (act : Heap → Except String Heap) (h : Heap) :
    Except PiniaError Heap :=
  match act h with
  | .ok h2 => .ok h2
  | .error e => .error (.actionFailure e)

/-- Modelled from the spec: an action function runs to completion as an
ordinary synchronous function over the state; nothing is deferred. -/
def runAction (act : Heap → Heap) (h : Heap) : Heap := act h

/-- `pinia.state.value`, the root registry's whole registered state for
server-side rendering: a plain object mapping each store id to that
store's state with reactivity wrappers unwrapped to plain values. -/
def piniaStateValue (p : Pinia) : List (String × List (String × Val)) :=
  p.stores.map (fun e => (e.1, stateOf p.heap e.2))

/-- Concrete example store matching the setup-store test: state fields
`name` and `counter`, derived `double`, action `increment`. -/
def exampleStore : Store :=
  { id := "main"
    stateFields := [("name", 0), ("counter", 1)]
    getterNames := ["double"]
    actionNames := ["increment"] }

/-- Concrete example heap: `name` is "Eduardo", `counter` is 0. -/
def exampleHeap : Heap :=
  fun r => if r = 0 then Val.str "Eduardo" else Val.num 0

/-- Concrete setup-function return value matching the setup-store test:
refs `name` and `counter`, action `increment`, computed `double`. -/
def exampleSetupRet : List (String × SetupEntry) :=
  [("name", .ref 0), ("counter", .ref 1), ("increment", .action),
    ("double", .derived)]

/-- Concrete example registry holding the example store. -/
def examplePinia : Pinia :=
  { heap := exampleHeap, stores := [("main", exampleStore)], nextRef := 2 }

end PiniaModel

namespace NuxtModule

/-- `nuxt.options.features`: an optional object whose `store` flag
enables the default Vuex store (Nuxt 2 only). -/
structure Features where
  store : Bool
  deriving DecidableEq, Repr

/-- The part of `nuxt.options` that the module's setup reads or
writes. -/
structure NuxtOptions where
  features : Option Features
  transpile : List String
  aliasPinia : Option String
  rootDir : String
  deriving DecidableEq, Repr

/-- The `@pinia/nuxt` module options. -/
structure ModuleOptions where
  disableVuex : Bool
  storesDirs : List String
  deriving DecidableEq, Repr

/-- The defaults declared by `defineNuxtModule`. -/
def moduleDefaults : ModuleOptions :=
  { disableVuex := true, storesDirs := ["./stores"] }

/-- The Nuxt build context touched by setup: options, installed
plugins, auto imports, auto-import dirs and type references. -/
structure NuxtCtx where
  options : NuxtOptions
  plugins : List String
  imports : List (String × String)
  importDirs : List String
  typeReferences : List String
  deriving DecidableEq, Repr

/-- `import.meta.url` of the module file. -/
def importMetaUrl : String := "@pinia/nuxt/src/module.ts"

/-- `createResolver(import.meta.url).resolve`, modelled as path
concatenation against the module's directory; the real path arithmetic
is owned by `@nuxt/kit`. -/
def resolverResolve (p : String) : String := "@pinia/nuxt/src/" ++ p

/-- The two-argument `resolver.resolve(rootDir, dir)`. -/
def resolverResolveIn (root d : String) : String := root ++ "/" ++ d

/-- `resolveModule(name, { paths })`, modelled as an encoding of its
arguments; the real resolution algorithm is owned by `@nuxt/kit`. -/
def resolveModule (name : String) (paths : List String) : String :=
  String.intercalate ":" paths ++ ":" ++ name

/-- JS truthiness of an optional string: `undefined` and the empty
string are falsy. -/
def strTruthy : Option String → Bool
  | none => false
  | some s => !s.isEmpty

/-- The `./runtime/composables` path used for the auto imports. -/
def composables : String := resolverResolve "./runtime/composables"

/-- The synchronous body of the module's `setup(options, nuxt)`: it
disables the default Vuex store for Nuxt 2, transpiles the runtime,
pins the `pinia` alias to the mjs build unless already set, and adds
the auto imports; the hooks it registers are modelled separately. -/
def setup (opts : ModuleOptions) (nuxt2 : Bool) (nuxt : NuxtCtx) :
    NuxtCtx :=
  let features :=
    if nuxt.options.features.isSome && opts.disableVuex && nuxt2 then
      nuxt.options.features.map (fun f => { f with store := false })
    else nuxt.options.features
  let transpile := nuxt.options.transpile ++ [resolverResolve "./runtime"]
  let aliasPinia :=
    if strTruthy nuxt.options.aliasPinia then nuxt.options.aliasPinia
    else some (resolveModule "pinia/dist/pinia.mjs"
      [nuxt.options.rootDir, importMetaUrl])
  let imports := nuxt.imports ++
    [(composables, "defineStore"), (composables, "acceptHMRUpdate"),
      (composables, "usePinia")]
  let importDirs := nuxt.importDirs ++
    opts.storesDirs.map (resolverResolveIn nuxt.options.rootDir)
  { nuxt with
    options := { nuxt.options with
      features := features
      transpile := transpile
      aliasPinia := aliasPinia }
    imports := imports
    importDirs := importDirs }

/-- The `prepare:types` hook body: pushes the module's type
reference. -/
def prepareTypesHook (n : NuxtCtx) : NuxtCtx :=
  { n with typeReferences := n.typeReferences ++ ["@pinia/nuxt"] }

/-- The `modules:done` hook body: adds the Vue 2 runtime plugin under
Nuxt 2 and the Vue 3 runtime plugin otherwise. -/
def modulesDoneHook (nuxt2 : Bool) (n : NuxtCtx) : NuxtCtx :=
  if nuxt2 then
    { n with plugins :=
        n.plugins ++ [resolverResolve "./runtime/plugin.vue2"] }
  else
    { n with plugins :=
        n.plugins ++ [resolverResolve "./runtime/plugin.vue3"] }

/-- Concrete example context: Vuex feature flag on, no `pinia` alias. -/
def exampleCtx : NuxtCtx :=
  { options :=
      { features := some { store := true }
        transpile := []
        aliasPinia := none
        rootDir := "/app" }
    plugins := []
    imports := []
    importDirs := []
    typeReferences := [] }

/-- Concrete example context whose `pinia` alias is already set. -/
def exampleCtxAliased : NuxtCtx :=
  { exampleCtx with options :=
      { exampleCtx.options with aliasPinia := some "pinia-custom" } }

end NuxtModule

namespace PiniaModel

theorem hset_same (h : Heap) (r : Nat) (v : Val) : hset h r v r = v := by
  simp [hset]

theorem hset_other (h : Heap) (r x : Nat) (v : Val) (hne : x ≠ r) :
    hset h r v x = h x := by
  simp [hset, hne]

theorem alookup_mem_snd {β : Type} {k : String} {b : β} :
    ∀ {l : List (String × β)}, alookup k l = some b → b ∈ l.map Prod.snd := by
  intro l
  induction l with
  | nil => intro h; simp [alookup] at h
  | cons e t ih =>
    intro h
    by_cases he : e.1 = k
    · simp [alookup, he] at h
      simp [h]
    · simp [alookup, he] at h
      exact List.mem_cons_of_mem _ (ih h)

theorem alookup_inj {l : List (String × Nat)} {k k' : String} {r r' : Nat}
    (hnd : (l.map Prod.snd).Nodup) (h1 : alookup k l = some r)
    (h2 : alookup k' l = some r') (hne : k ≠ k') : r ≠ r' := by
  induction l with
  | nil => simp [alookup] at h1
  | cons e t ih =>
    simp only [List.map_cons, List.nodup_cons] at hnd
    by_cases hek : e.1 = k
    · have hek' : e.1 ≠ k' := fun hc => hne (hek ▸ hc ▸ rfl)
      simp [alookup, hek] at h1
      simp [alookup, hek'] at h2
      intro hrr
      exact hnd.1 (h1 ▸ hrr ▸ alookup_mem_snd h2)
    · by_cases hek' : e.1 = k'
      · simp [alookup, hek] at h1
        simp [alookup, hek'] at h2
        intro hrr
        exact hnd.1 (h2 ▸ hrr ▸ alookup_mem_snd h1)
      · simp [alookup, hek] at h1
        simp [alookup, hek'] at h2
        exact ih hnd.2 h1 h2

theorem readField_writeField_same {s : Store} {k : String} {r : Nat}
    (h : Heap) (v : Val) (hk : alookup k s.stateFields = some r) :
    readField (writeField h s k v) s k = some v := by
  simp [readField, writeField, hk, hset]

theorem readField_writeField_other {s : Store} {k k' : String}
    (h : Heap) (v : Val) (hrefs : (s.stateFields.map Prod.snd).Nodup)
    (hne : k ≠ k') :
    readField (writeField h s k' v) s k = readField h s k := by
  cases hk' : alookup k' s.stateFields with
  | none => simp [writeField, hk']
  | some r' =>
    cases hk : alookup k s.stateFields with
    | none => simp [readField, writeField, hk', hk]
    | some r =>
      have hrr : r ≠ r' := alookup_inj hrefs hk hk' hne
      simp [readField, writeField, hk', hk, hset, hrr]

theorem patch_frame {s : Store} {k : String}
    (hrefs : (s.stateFields.map Prod.snd).Nodup) :
    ∀ (p : List (String × Val)) (h : Heap), k ∉ p.map Prod.fst →
      readField (patchState h s p) s k = readField h s k := by
  intro p
  induction p with
  | nil => intro h _; rfl
  | cons e rest ih =>
    intro h hk
    simp only [List.map_cons, List.mem_cons, not_or] at hk
    rw [patchState, ih _ hk.2]
    exact readField_writeField_other h e.2 hrefs hk.1

theorem patch_effect {s : Store} {k : String} {v : Val} {r : Nat}
    (hrefs : (s.stateFields.map Prod.snd).Nodup)
    (hks : alookup k s.stateFields = some r) :
    ∀ (p : List (String × Val)) (h : Heap), (p.map Prod.fst).Nodup →
      alookup k p = some v →
      readField (patchState h s p) s k = some v := by
  intro p
  induction p with
  | nil => intro h _ hkp; simp [alookup] at hkp
  | cons e rest ih =>
    intro h hp hkp
    simp only [List.map_cons, List.nodup_cons] at hp
    by_cases hek : e.1 = k
    · simp [alookup, hek] at hkp
      have hnotin : k ∉ rest.map Prod.fst := hek ▸ hp.1
      rw [patchState, patch_frame hrefs rest _ hnotin, hek, hkp]
      exact readField_writeField_same h v hks
    · simp [alookup, hek] at hkp
      rw [patchState]
      exact ih _ hp.2 hkp

/-- Claim C1: applying a patch via `$patch` updates exactly the state
fields named by the patch's keys and leaves every other field of the
store's state object unchanged. -/
theorem patch_updates_named_fields_only (s : Store) (h : Heap)
    (p : List (String × Val))
    (hrefs : (s.stateFields.map Prod.snd).Nodup)
    (hp : (p.map Prod.fst).Nodup) :
    (∀ k, k ∉ p.map Prod.fst →
      readField (patchState h s p) s k = readField h s k) ∧
    (∀ k v r, alookup k p = some v → alookup k s.stateFields = some r →
      readField (patchState h s p) s k = some v) := by
  constructor
  · intro k hk
    exact patch_frame hrefs p h hk
  · intro k v r hkp hks
    exact patch_effect hrefs hks p h hp hkp

/-- Claim C2: calling the store-creation function returned by
`defineStore` a second time with the same id against the same registry
looks up and returns the already-created store entry rather than
creating a new one. -/
theorem use_store_idempotent (id : String) (su : List (String × EntrySpec))
    (p : Pinia) :
    defineStore id su (defineStore id su p).2 = defineStore id su p := by
  unfold defineStore useStore
  cases hl : alookup id p.stores with
  | some s => simp [hl]
  | none => simp [hl, alookup]

theorem patch_updates_named_fields_only_witness :
    readField (patchState exampleHeap exampleStore [("counter", Val.num 2)])
        exampleStore "name" = readField exampleHeap exampleStore "name" ∧
    readField (patchState exampleHeap exampleStore [("counter", Val.num 2)])
        exampleStore "counter" = some (Val.num 2) := by
  have h := patch_updates_named_fields_only exampleStore exampleHeap
    [("counter", Val.num 2)] (by decide) (by decide)
  exact ⟨h.1 "name" (by decide), h.2 "counter" (Val.num 2) 1 rfl rfl⟩

theorem alookup_map_val {β γ : Type} (f : β → γ) (k : String) :
    ∀ (l : List (String × β)),
      alookup k (l.map (fun e => (e.1, f e.2))) = (alookup k l).map f := by
  intro l
  induction l with
  | nil => rfl
  | cons e t ih =>
    by_cases he : e.1 = k
    · simp [alookup, he]
    · simp [alookup, he, ih]

theorem alookup_buildFields_none {L : List (String × SetupEntry)}
    {k : String} (hk : k ∉ L.map Prod.fst) :
    alookup k (buildFields L) = none := by
  induction L with
  | nil => rfl
  | cons e t ih =>
    simp only [List.map_cons, List.mem_cons, not_or] at hk
    obtain ⟨a, se⟩ := e
    have hak : ¬a = k := fun hc => hk.1 hc.symm
    cases se with
    | ref r0 => simp [buildFields, alookup, hak, ih hk.2]
    | derived => simp [buildFields, ih hk.2]
    | action => simp [buildFields, ih hk.2]

theorem alookup_buildFields {L : List (String × SetupEntry)} {k : String}
    (hnd : (L.map Prod.fst).Nodup) (r : Nat) :
    alookup k (buildFields L) = some r ↔ alookup k L = some (.ref r) := by
  induction L with
  | nil => simp [alookup, buildFields]
  | cons e t ih =>
    simp only [List.map_cons, List.nodup_cons] at hnd
    obtain ⟨a, se⟩ := e
    by_cases hak : a = k
    · cases se with
      | ref r0 => simp [buildFields, alookup, hak]
      | derived =>
        have hnone : alookup k (buildFields t) = none :=
          alookup_buildFields_none (hak ▸ hnd.1)
        simp [buildFields, alookup, hak, hnone]
      | action =>
        have hnone : alookup k (buildFields t) = none :=
          alookup_buildFields_none (hak ▸ hnd.1)
        simp [buildFields, alookup, hak, hnone]
    · cases se with
      | ref r0 => simp [buildFields, alookup, hak, ih hnd.2]
      | derived => simp [buildFields, alookup, hak, ih hnd.2]
      | action => simp [buildFields, alookup, hak, ih hnd.2]

theorem mem_buildGetters {L : List (String × SetupEntry)} {k : String}
    (h : alookup k L = some .derived) : k ∈ buildGetters L := by
  induction L with
  | nil => simp [alookup] at h
  | cons e t ih =>
    obtain ⟨a, se⟩ := e
    by_cases hak : a = k
    · simp [alookup, hak] at h
      subst h
      simp [buildGetters, hak]
    · simp [alookup, hak] at h
      cases se with
      | ref r0 => simpa [buildGetters] using ih h
      | derived => simpa [buildGetters] using Or.inr (ih h)
      | action => simpa [buildGetters] using ih h

theorem mem_buildActions {L : List (String × SetupEntry)} {k : String}
    (h : alookup k L = some .action) : k ∈ buildActions L := by
  induction L with
  | nil => simp [alookup] at h
  | cons e t ih =>
    obtain ⟨a, se⟩ := e
    by_cases hak : a = k
    · simp [alookup, hak] at h
      subst h
      simp [buildActions, hak]
    · simp [alookup, hak] at h
      cases se with
      | ref r0 => simpa [buildActions] using ih h
      | derived => simpa [buildActions] using ih h
      | action => simpa [buildActions] using Or.inr (ih h)

theorem alookup_stateOf (h : Heap) (s : Store) (k : String) :
    alookup k (stateOf h s) = (alookup k s.stateFields).map (fun r => h r) := by
  simpa [stateOf] using alookup_map_val (fun r => h r) k s.stateFields

/-- Claim C3: for a store defined with a setup function, `$state`
contains exactly the ref-backed fields of the setup function's return
value, with refs unwrapped to their values; derived (computed) values
and action functions are exposed on the store but are not properties of
`$state`. -/
theorem setup_state_extraction (id : String)
    (L : List (String × SetupEntry)) (h : Heap) (k : String)
    (hnd : (L.map Prod.fst).Nodup) :
    (∀ v, alookup k (stateOf h (buildStore id L)) = some v ↔
      ∃ r, alookup k L = some (.ref r) ∧ v = h r) ∧
    (alookup k L = some .derived →
      k ∈ exposedKeys (buildStore id L) ∧
      alookup k (stateOf h (buildStore id L)) = none) ∧
    (alookup k L = some .action →
      k ∈ exposedKeys (buildStore id L) ∧
      alookup k (stateOf h (buildStore id L)) = none) := by
  have hfields : (buildStore id L).stateFields = buildFields L := rfl
  have hstate : ∀ v, alookup k (stateOf h (buildStore id L)) = some v ↔
      ∃ r, alookup k L = some (.ref r) ∧ v = h r := by
    intro v
    rw [alookup_stateOf, hfields]
    constructor
    · intro hv
      rcases Option.map_eq_some'.mp hv with ⟨r, hr, hvr⟩
      exact ⟨r, (alookup_buildFields hnd r).mp hr, hvr.symm⟩
    · rintro ⟨r, hr, hvr⟩
      rw [(alookup_buildFields hnd r).mpr hr]
      exact congrArg some hvr.symm
  have hnonstate : ∀ se, alookup k L = some se → se ≠ (.ref (0 : Nat)) →
      (∀ r : Nat, se ≠ .ref r) →
      alookup k (stateOf h (buildStore id L)) = none := by
    intro se hse _ hnoref
    cases hcase : alookup k (stateOf h (buildStore id L)) with
    | none => rfl
    | some v =>
      rcases (hstate v).mp hcase with ⟨r, hr, _⟩
      rw [hse] at hr
      exact absurd (Option.some.inj hr) (hnoref r)
  refine ⟨hstate, ?_, ?_⟩
  · intro hder
    refine ⟨?_, hnonstate _ hder (by simp) (by simp)⟩
    simp only [exposedKeys, List.mem_append]
    exact Or.inl (Or.inr (mem_buildGetters hder))
  · intro hact
    refine ⟨?_, hnonstate _ hact (by simp) (by simp)⟩
    simp only [exposedKeys, List.mem_append]
    exact Or.inr (mem_buildActions hact)

theorem setup_state_extraction_witness :
    ("double" ∈ exposedKeys (buildStore "main" exampleSetupRet) ∧
      alookup "double" (stateOf exampleHeap (buildStore "main" exampleSetupRet)) = none) ∧
    ("increment" ∈ exposedKeys (buildStore "main" exampleSetupRet) ∧
      alookup "increment" (stateOf exampleHeap (buildStore "main" exampleSetupRet)) = none) ∧
    alookup "counter" (stateOf exampleHeap (buildStore "main" exampleSetupRet)) =
      some (Val.num 0) := by
  have h1 := setup_state_extraction "main" exampleSetupRet exampleHeap
    "double" (by decide)
  have h2 := setup_state_extraction "main" exampleSetupRet exampleHeap
    "counter" (by decide)
  have h3 := setup_state_extraction "main" exampleSetupRet exampleHeap
    "increment" (by decide)
  exact ⟨h1.2.1 rfl, h3.2.2 rfl, (h2.1 (Val.num 0)).mpr ⟨1, rfl, rfl⟩⟩

/-- Claim C4: for a store whose state is built from pre-existing refs,
writing the ref's value is observable by reading the store field, and
patching the store field updates the original ref's value to the patched
value. -/
theorem ref_store_consistency (s : Store) (h : Heap) (k : String)
    (r : Nat) (v : Val) (hk : alookup k s.stateFields = some r) :
    readField (hset h r v) s k = some v ∧
    patchState h s [(k, v)] r = v := by
  constructor
  · simp [readField, hk, hset]
  · simp [patchState, writeField, hk, hset]

theorem ref_store_consistency_witness :
    readField (hset exampleHeap 0 (Val.str "Ed")) exampleStore "name" =
      some (Val.str "Ed") ∧
    patchState exampleHeap exampleStore [("counter", Val.num 2)] 1 =
      Val.num 2 := by
  exact ⟨(ref_store_consistency exampleStore exampleHeap "name" 0
      (Val.str "Ed") rfl).1,
    (ref_store_consistency exampleStore exampleHeap "counter" 1
      (Val.num 2) rfl).2⟩

/-- Claim C5: every mutation of store state — a direct field assignment
or one performed by an action — takes effect synchronously: reading the
same field immediately after observes the new value, with no deferral of
the state change itself. -/
theorem mutation_synchronous (s : Store) (h : Heap) (k : String)
    (r : Nat) (v : Val) (hk : alookup k s.stateFields = some r) :
    readField (writeField h s k v) s k = some v ∧
    readField (runAction (fun hh => writeField hh s k v) h) s k = some v := by
  constructor <;> simp [readField, writeField, runAction, hk, hset]

theorem mutation_synchronous_witness :
    readField (writeField exampleHeap exampleStore "name" (Val.str "Ed"))
      exampleStore "name" = some (Val.str "Ed") ∧
    readField
      (runAction (fun hh => writeField hh exampleStore "name" (Val.str "Ed"))
        exampleHeap)
      exampleStore "name" = some (Val.str "Ed") :=
  mutation_synchronous exampleStore exampleHeap "name" 0 (Val.str "Ed") rfl

/-- Claim C6: every error the library can produce — an invalid
(duplicate or missing) store identifier, an action function throwing
synchronously or rejecting, or use of store APIs before installation of
an active registry — is surfaced directly to the caller, and the
library performs no recovery or retry. -/
theorem errors_surfaced_directly :
    (∀ (id : String) (su : List (String × EntrySpec)),
      useStoreChecked none id su = .error .noActivePinia) ∧
    (∀ (defined : List String) (id : String), id ∈ defined →
      registerId defined id = .error (.duplicateId id)) ∧
    (∀ (p : Pinia) (id : String), alookup id p.stores = none →
      lookupStore p id = .error (.missingId id)) ∧
    (∀ (act : Heap → Except String Heap) (h : Heap) (e : String),
      act h = .error e →
      runActionChecked act h = .error (.actionFailure e)) := by
  refine ⟨fun id su => rfl, fun defined id hmem => ?_,
    fun p id hnone => ?_, fun act h e hact => ?_⟩
  · simp [registerId, hmem]
  · simp [lookupStore, hnone]
  · simp [runActionChecked, hact]

theorem errors_surfaced_directly_witness :
    useStoreChecked none "main" [] = .error .noActivePinia ∧
    registerId ["main"] "main" = .error (.duplicateId "main") ∧
    lookupStore createPinia "main" = .error (.missingId "main") ∧
    runActionChecked (fun _ => .error "boom") exampleHeap =
      .error (.actionFailure "boom") :=
  ⟨errors_surfaced_directly.1 "main" [],
    errors_surfaced_directly.2.1 ["main"] "main" (by decide),
    errors_surfaced_directly.2.2.1 createPinia "main" rfl,
    errors_surfaced_directly.2.2.2 (fun _ => .error "boom") exampleHeap
      "boom" rfl⟩

/-- Claim C7: the root registry exposes, for server-side rendering, the
whole registered state as a plain object: a mapping from each store id
to that store's state with all reactivity wrappers unwrapped to plain
values. -/
theorem state_serialization_plain (p : Pinia) (id : String) (s : Store)
    (hs : alookup id p.stores = some s) :
    alookup id (piniaStateValue p) = some (stateOf p.heap s) ∧
    (∀ k r, alookup k s.stateFields = some r →
      alookup k (stateOf p.heap s) = some (p.heap r)) := by
  constructor
  · simp [piniaStateValue, alookup_map_val, hs]
  · intro k r hk
    rw [alookup_stateOf]
    simp [hk]

theorem state_serialization_plain_witness :
    alookup "main" (piniaStateValue examplePinia) =
      some (stateOf exampleHeap exampleStore) ∧
    alookup "name" (stateOf exampleHeap exampleStore) =
      some (Val.str "Eduardo") := by
  have h := state_serialization_plain examplePinia "main" exampleStore rfl
  exact ⟨h.1, h.2 "name" 0 rfl⟩

end PiniaModel

namespace NuxtModule

/-- Claim C8: setup sets `nuxt.options.features.store` to `false`
exactly when `nuxt.options.features` is truthy, `disableVuex` is truthy
(its default is `true`) and the host is Nuxt 2; in every other case the
features object is left unchanged. -/
theorem nuxt_disable_vuex (opts : ModuleOptions) (nuxt2 : Bool)
    (n : NuxtCtx) :
    (∀ f, n.options.features = some f → opts.disableVuex = true →
      nuxt2 = true →
      (setup opts nuxt2 n).options.features = some { store := false }) ∧
    (n.options.features = none ∨ opts.disableVuex = false ∨
      nuxt2 = false →
      (setup opts nuxt2 n).options.features = n.options.features) ∧
    moduleDefaults.disableVuex = true := by
  refine ⟨?_, ?_, rfl⟩
  · intro f hf hd h2
    simp [setup, hf, hd, h2]
  · intro hcase
    rcases hcase with h | h | h <;> simp [setup, h]

theorem nuxt_disable_vuex_witness :
    (setup moduleDefaults true exampleCtx).options.features =
      some { store := false } ∧
    (setup moduleDefaults false exampleCtx).options.features =
      exampleCtx.options.features :=
  ⟨(nuxt_disable_vuex moduleDefaults true exampleCtx).1
      { store := true } rfl rfl rfl,
    (nuxt_disable_vuex moduleDefaults false exampleCtx).2.1
      (Or.inr (Or.inr rfl))⟩

/-- Claim C9: on the `modules:done` hook the module adds exactly one
runtime plugin — the Vue 2 runtime plugin when the host is Nuxt 2 and
the Vue 3 runtime plugin otherwise — and the two plugin paths differ,
so never both. -/
theorem nuxt_single_runtime_plugin (nuxt2 : Bool) (n : NuxtCtx) :
    (modulesDoneHook nuxt2 n).plugins = n.plugins ++
      [resolverResolve (if nuxt2 then "./runtime/plugin.vue2"
        else "./runtime/plugin.vue3")] ∧
    resolverResolve "./runtime/plugin.vue2" ≠
      resolverResolve "./runtime/plugin.vue3" := by
  refine ⟨?_, by decide⟩
  cases nuxt2 <;> simp [modulesDoneHook]

/-- Claim C10: setup assigns the resolved `pinia/dist/pinia.mjs` path
to `nuxt.options.alias.pinia` only when that alias is falsy; a truthy
user-set alias is left unchanged. -/
theorem nuxt_alias_preserved (opts : ModuleOptions) (nuxt2 : Bool)
    (n : NuxtCtx) :
    (strTruthy n.options.aliasPinia = true →
      (setup opts nuxt2 n).options.aliasPinia = n.options.aliasPinia) ∧
    (strTruthy n.options.aliasPinia = false →
      (setup opts nuxt2 n).options.aliasPinia =
        some (resolveModule "pinia/dist/pinia.mjs"
          [n.options.rootDir, importMetaUrl])) := by
  constructor <;> intro h <;> simp [setup, h]

theorem nuxt_alias_preserved_witness :
    (setup moduleDefaults true exampleCtx).options.aliasPinia =
      some (resolveModule "pinia/dist/pinia.mjs"
        ["/app", importMetaUrl]) ∧
    (setup moduleDefaults true exampleCtxAliased).options.aliasPinia =
      some "pinia-custom" :=
  ⟨(nuxt_alias_preserved moduleDefaults true exampleCtx).2 rfl,
    (nuxt_alias_preserved moduleDefaults true exampleCtxAliased).1 rfl⟩

end NuxtModule
